import Mathlib

/-!
# A verification model of the tslint core linter (`src/linter.ts`)

This file gives a shallow embedding, in Lean, of the orchestration engine of the
linter: rule dispatch with failure isolation (`applyRule`), the suppression-aware
failure pipeline (`getAllFailures`), the multi-pass fix-application algorithm
(`applyAllFixes` / `applyFixes`), severity resolution and session aggregation
(`lint` / `getResult`).

External collaborators that are not part of the given core (the replacement
merger, the suppression resolver, path resolution, the rule loader, the
formatter registry) are modelled as components of a `LintEnv` record, so every
theorem quantifies over their behaviour.  Exceptions thrown by the TypeScript
code are modelled with `Except`; the thrown-at state (linter session state and
the on-disk file system) is carried in the error payload, because in the source
an exception leaves the already-performed mutations in place.  Console output
(the deduplicated warning of the dispatch boundary) is not modelled; no
statement below concerns it.
-/

set_option autoImplicit false

namespace TSLint

/-- Modelled from the spec: the severity levels a rule can be configured with
(`RuleSeverity` of rule.ts, which is not part of the given core). -/
inductive RuleSeverity where
  | error
  | warning
  | off
  deriving DecidableEq

/-- Modelled from the spec: a single file-scoped text edit (half-open range plus
new text).  The engine never inspects its fields; it only hands replacements to
the external merge routine. -/
structure Replacement where
  filePath : String
  startOffset : Nat
  endOffset : Nat
  text : String
  deriving DecidableEq

/-- Modelled from the spec: a Fix is an ordered collection of Replacements
representing one atomic repair. -/
abbrev Fix := List Replacement

/-- Modelled from the spec: a SourceView — the parsed representation of one
file's text at a point in time.  The engine re-derives it from a file name and
the current text (`utils.getSourceFile`). -/
structure SourceFile where
  fileName : String
  text : String
  deriving DecidableEq

/-- Modelled from the spec: the whole-program semantic context.  The engine only
asks it for the source view registered under a file name
(`ts.Program.getSourceFile`). -/
structure Program where
  getSrc : String → Option SourceFile

/-- Modelled from the spec: one reported violation (`RuleFailure` of rule.ts,
which is not part of the given core): owning rule name, file path, optional fix,
and a severity slot that the severity resolver stamps later. -/
structure RuleFailure where
  ruleName : String
  fileName : String
  fix : Option Fix
  severity : RuleSeverity
  deriving DecidableEq

/-- `RuleFailure.hasFix()` of rule.ts. -/
def RuleFailure.hasFix (f : RuleFailure) : Bool :=
  f.fix.isSome

/-- Modelled from the spec: a rule exposes its name, its configured severity, a
capability tag (`isTypedRule`) and one execution entry point per capability;
execution may raise, which the dispatch boundary must catch. -/
structure IRule where
  ruleName : String
  ruleSeverity : RuleSeverity
  isTyped : Bool
  apply : SourceFile → Except String (List RuleFailure)
  applyWithProgram : SourceFile → Program → Except String (List RuleFailure)

/-- Modelled from the spec: a pluggable output formatter. -/
structure Formatter where
  format : List RuleFailure → List RuleFailure → String

/-- Modelled from the spec: one configured rule entry; rule options beyond the
name and the severity are opaque to the engine. -/
structure RuleConfig where
  ruleName : String
  ruleSeverity : RuleSeverity

/-- Modelled from the spec: the configuration object — rule lists for plain and
alternate-syntax (js) sources plus extra rule directories. -/
structure IConfigurationFile where
  rules : List RuleConfig
  jsRules : List RuleConfig
  rulesDirectory : List String

/-- Modelled from the spec: the engine options (`ILinterOptions`, which lives
outside the given core): the fix-mode flag, the formatter selection and extra
rule directories. -/
structure LinterOptions where
  fix : Bool
  formatter : Option String
  formattersDirectory : Option String
  rulesDirectory : List String

/-- The on-disk file system, as an association list from path to contents. -/
abbrev FS := List (String × String)

/-- `fs.readFileSync`: the current contents stored under a path, if any. -/
def FS.read (disk : FS) (p : String) : Option String :=
  (disk.find? (fun entry => entry.1 == p)).map (fun entry => entry.2)

/-- `fs.writeFileSync`: whole-file overwrite of the entry stored under a path. -/
def FS.write : FS → String → String → FS
  | [], p, contents => [(p, contents)]
  | (q, c) :: rest, p, contents =>
    if q == p then (q, contents) :: rest else (q, c) :: FS.write rest p contents

/-- Modelled from the spec: the collaborator interfaces the engine consumes —
the replacement merge routine (`Replacement.applyFixes`), the suppression
resolver (`removeDisabledFailures`), path resolution (`path.resolve`), the rule
loader (`convertRuleOptions` + `loadRules`), the formatter registry
(`findFormatter`) and relative-path normalisation (`getRelativePath`). -/
structure LintEnv where
  merge : String → List Fix → String
  removeDisabled : SourceFile → List RuleFailure → List RuleFailure
  resolve : String → String
  loadRules : List RuleConfig → List String → Bool → List IRule
  findFormatter : String → Option String → Option Formatter
  getRelativePath : Option String → Option String

/-- The suppression-resolver contract, modelled from the spec: given a source
view and a raw failure list it returns the subset not covered by inline disable
directives. -/
def SuppressionSound (env : LintEnv) : Prop :=
  ∀ sourceFile failures, List.Sublist (env.removeDisabled sourceFile failures) failures

/-- The engine session state: options, the optional semantic program, and the
failures and fixes accumulated across repeated `lint` invocations. -/
structure Linter where
  options : LinterOptions
  program : Option Program
  failures : List RuleFailure
  fixes : List RuleFailure

/-- The summary produced by `getResult`. -/
structure LintResult where
  errorCount : Nat
  failures : List RuleFailure
  fixes : List RuleFailure
  format : String
  output : String
  warningCount : Nat

/-- The `/\.jsx?$/i` test of `lint`. -/
def isJsFileName (fileName : String) : Bool :=
  fileName.toLower.endsWith ".js" || fileName.toLower.endsWith ".jsx"

/-- The body of the `try` block of `applyRule`: use the semantic entry point
exactly when a program is present and the rule is type-aware. -/
def dispatchRule (program : Option Program) (rule : IRule) (sourceFile : SourceFile) :
    Except String (List RuleFailure) :=
  match program with
  | some p => if rule.isTyped then rule.applyWithProgram sourceFile p else rule.apply sourceFile
  | none => rule.apply sourceFile

/-- `Linter#applyRule`: dispatch one rule, catching any error it raises and
degrading it to an empty failure list (the caught error is additionally shown
once as a console warning, which is not modelled). -/
def applyRule (program : Option Program) (rule : IRule) (sourceFile : SourceFile) :
    List RuleFailure :=
  match dispatchRule program rule sourceFile with
  | .ok failures => failures
  | .error _ => []

/-- `Linter#getAllFailures`: run every enabled rule through the dispatch
boundary, concatenate, and apply the suppression filter once to the full batch. -/
def getAllFailures (env : LintEnv) (program : Option Program) (sourceFile : SourceFile)
    (enabledRules : List IRule) : List RuleFailure :=
  env.removeDisabled sourceFile
    ((enabledRules.map (fun rule => applyRule program rule sourceFile)).flatten)

/-- One `Map.set`-with-push step of `createMultiMap`: append the value to an
existing key's bucket, else add the key at the end (JS `Map` insertion order). -/
def addMultiMapEntry {K V : Type} [BEq K] : List (K × List V) → K → V → List (K × List V)
  | [], k, v => [(k, [v])]
  | (k0, vs) :: rest, k, v =>
    if k0 == k then (k0, vs ++ [v]) :: rest else (k0, vs) :: addMultiMapEntry rest k v

/-- `createMultiMap` of linter.ts: group the inputs by key, preserving the JS
`Map` iteration order (first occurrence of each key, values in input order). -/
def createMultiMap {T K V : Type} [BEq K] (inputs : List T) (getPair : T → Option (K × V)) :
    List (K × List V) :=
  inputs.foldl
    (fun m input =>
      match getPair input with
      | some (k, v) => addMultiMapEntry m k v
      | none => m)
    []

/-- The `fixesByFile.forEach` body of `Linter#applyFixes`, iterated over the
grouped entries: an entry for the linted file replaces the in-memory working
text and is also written to disk; an entry for any other file is read from
disk, merged, and written back.  A missing external file raises (ENOENT), with
the writes already performed left in place. -/
def applyFixesLoop (env : LintEnv) (sourceFilePath : String) :
    List (String × List Fix) → String → FS → Except (String × FS) (String × FS)
  | [], source, disk => .ok (source, disk)
  | (filePath, fileFixes) :: rest, source, disk =>
    if env.resolve filePath == env.resolve sourceFilePath then
      let fileNewSource := env.merge source fileFixes
      applyFixesLoop env sourceFilePath rest fileNewSource (FS.write disk filePath fileNewSource)
    else
      match FS.read disk filePath with
      | none => .error ("ENOENT: no such file " ++ filePath, disk)
      | some oldSource =>
        let fileNewSource := env.merge oldSource fileFixes
        applyFixesLoop env sourceFilePath rest source (FS.write disk filePath fileNewSource)

/-- `Linter#applyFixes`: group the fixable failures by their file name (the
non-null `getFix()` is modelled with `Option.getD`, justified because every
caller filters on `hasFix` first) and commit each group. -/
def Linter.applyFixes (env : LintEnv) (sourceFilePath : String) (source : String)
    (fixableFailures : List RuleFailure) (disk : FS) : Except (String × FS) (String × FS) :=
  applyFixesLoop env sourceFilePath
    (createMultiMap fixableFailures (fun f => some (f.fileName, f.fix.getD []))) source disk

/-- `Linter#getSourceFile`: with a program, look the file up in the program and
raise a fatal error when absent; without one, re-parse the given text. -/
def Linter.getSourceFile (l : Linter) (fileName source : String) : Except String SourceFile :=
  match l.program with
  | some program =>
    match program.getSrc fileName with
    | some sourceFile => .ok sourceFile
    | none =>
      .error ("Invalid source file: " ++ fileName ++
        ". Ensure that the files supplied to lint have a .ts, .tsx, .d.ts, .js or .jsx extension.")
  | none => .ok { fileName := fileName, text := source }

/-- The `for (const rule of enabledRules)` loop of `Linter#applyAllFixes`,
threading the session state (for the accumulated fixes), the in-memory working
text, the current source view and the disk. -/
def applyAllFixesLoop (env : LintEnv) (fileFailures : List RuleFailure) (sourceFileName : String) :
    List IRule → Linter → String → SourceFile → FS →
      Except (String × Linter × FS) (SourceFile × Linter × FS)
  | [], l, _source, sourceFile, disk => .ok (sourceFile, l, disk)
  | rule :: rest, l, source, sourceFile, disk =>
    let hasFixes := fileFailures.any (fun f => f.hasFix && f.ruleName == rule.ruleName)
    if hasFixes then
      let updatedFailures := env.removeDisabled sourceFile (applyRule l.program rule sourceFile)
      let fixableFailures := updatedFailures.filter RuleFailure.hasFix
      let lNext : Linter := { l with fixes := l.fixes ++ fixableFailures }
      match Linter.applyFixes env sourceFileName source fixableFailures disk with
      | .error (e, diskPartial) => .error (e, lNext, diskPartial)
      | .ok (newSource, diskNew) =>
        match lNext.getSourceFile sourceFileName newSource with
        | .error e => .error (e, lNext, diskNew)
        | .ok sourceFileNew =>
          applyAllFixesLoop env fileFailures sourceFileName rest lNext newSource sourceFileNew diskNew
    else
      applyAllFixesLoop env fileFailures sourceFileName rest l source sourceFile disk

/-- `Linter#applyAllFixes`: start from the view's text, fix rule by rule, then
recompute the complete failure list against the final source view. -/
def Linter.applyAllFixes (env : LintEnv) (l : Linter) (enabledRules : List IRule)
    (fileFailures : List RuleFailure) (sourceFile : SourceFile) (sourceFileName : String)
    (disk : FS) : Except (String × Linter × FS) (List RuleFailure × Linter × FS) :=
  match applyAllFixesLoop env fileFailures sourceFileName enabledRules l sourceFile.text sourceFile
      disk with
  | .error e => .error e
  | .ok (sourceFileFinal, lFinal, diskFinal) =>
    .ok (getAllFailures env lFinal.program sourceFileFinal enabledRules, lFinal, diskFinal)

/-- One `Map.set` step of `new Map(entries)`: replace the value of an existing
key in place, else add the key at the end. -/
def mapSet : List (String × RuleSeverity) → String → RuleSeverity → List (String × RuleSeverity)
  | [], k, v => [(k, v)]
  | (k0, v0) :: rest, k, v =>
    if k0 == k then (k0, v) :: rest else (k0, v0) :: mapSet rest k v

/-- `Map.get` on the severity map. -/
def mapGet (m : List (String × RuleSeverity)) (k : String) : Option RuleSeverity :=
  (m.find? (fun entry => entry.1 == k)).map (fun entry => entry.2)

/-- The `ruleSeverityMap` of `lint`: `new Map` over `(ruleName, ruleSeverity)`
of every enabled rule. -/
def buildSeverityMap (enabledRules : List IRule) : List (String × RuleSeverity) :=
  enabledRules.foldl (fun m rule => mapSet m rule.ruleName rule.ruleSeverity) []

/-- The severity-stamping loop of `lint`: look every failure's rule up in the
severity map; a missing entry raises, naming the rule. -/
def stampSeverities (m : List (String × RuleSeverity)) :
    List RuleFailure → Except String (List RuleFailure)
  | [] => .ok []
  | f :: rest =>
    match mapGet m f.ruleName with
    | none => .error f.ruleName
    | some severity =>
      match stampSeverities m rest with
      | .error e => .error e
      | .ok rest' => .ok ({ f with severity := severity } :: rest')

/-- `Linter#getEnabledRules`: load the rule list configured for the file's
source kind, searching the option and configuration rule directories. -/
def Linter.getEnabledRules (env : LintEnv) (l : Linter) (configuration : IConfigurationFile)
    (isJs : Bool) : List IRule :=
  env.loadRules (if isJs then configuration.jsRules else configuration.rules)
    (l.options.rulesDirectory ++ configuration.rulesDirectory) isJs

/-- `Linter#lint`: one invocation on one file.  Errors carry the session state
and the disk as they stood when the exception was raised. -/
def Linter.lint (env : LintEnv) (l : Linter) (fileName source : String)
    (configuration : IConfigurationFile) (disk : FS) :
    Except (String × Linter × FS) (Linter × FS) :=
  match l.getSourceFile fileName source with
  | .error e => .error (e, l, disk)
  | .ok sourceFile =>
    let isJs := isJsFileName fileName
    let enabledRules := Linter.getEnabledRules env l configuration isJs
    let fileFailures := getAllFailures env l.program sourceFile enabledRules
    if fileFailures.length = 0 then
      .ok (l, disk)
    else
      match
        (if l.options.fix && fileFailures.any RuleFailure.hasFix then
          Linter.applyAllFixes env l enabledRules fileFailures sourceFile fileName disk
        else
          .ok (fileFailures, l, disk)) with
      | .error e => .error e
      | .ok (finalFailures, lAfter, diskAfter) =>
        match stampSeverities (buildSeverityMap enabledRules) finalFailures with
        | .error ruleName =>
          .error ("Severity for rule " ++ ruleName ++ " not found", lAfter, diskAfter)
        | .ok stamped =>
          .ok ({ lAfter with failures := lAfter.failures ++ stamped }, diskAfter)

/-- `Linter#getResult`: look the formatter up (an unknown name raises), format,
and summarise the accumulated failures. -/
def Linter.getResult (env : LintEnv) (l : Linter) : Except String LintResult :=
  let formatterName := l.options.formatter.getD "prose"
  match env.findFormatter formatterName (env.getRelativePath l.options.formattersDirectory) with
  | none => .error ("formatter " ++ formatterName ++ " not found")
  | some formatter =>
    let output := formatter.format l.failures l.fixes
    let errorCount := (l.failures.filter (fun f => f.severity == RuleSeverity.error)).length
    .ok { errorCount := errorCount, failures := l.failures, fixes := l.fixes,
          format := formatterName, output := output,
          warningCount := l.failures.length - errorCount }

/-- Modelled from the spec: one iteration of the fix-application algorithm of
section 4.3, written from the spec's words for comparison with the source's
`applyAllFixesLoop`.  Each step re-executes the rule through the dispatch
boundary against the current view, applies suppression filtering to the fresh
single-rule result, records and commits its fixes, and hands the next iteration
a source view re-derived from the merged text. -/
def applyAllFixesSpecLoop (env : LintEnv) (sourceFileName : String) :
    List IRule → Linter → String → SourceFile → FS →
      Except (String × Linter × FS) (SourceFile × Linter × FS)
  | [], l, _source, sourceFile, disk => .ok (sourceFile, l, disk)
  | rule :: rest, l, source, sourceFile, disk =>
    let updatedFailures := env.removeDisabled sourceFile (applyRule l.program rule sourceFile)
    let fixableFailures := updatedFailures.filter RuleFailure.hasFix
    let lNext : Linter := { l with fixes := l.fixes ++ fixableFailures }
    match Linter.applyFixes env sourceFileName source fixableFailures disk with
    | .error (e, diskPartial) => .error (e, lNext, diskPartial)
    | .ok (newSource, diskNew) =>
      applyAllFixesSpecLoop env sourceFileName rest lNext newSource
        { fileName := sourceFileName, text := newSource } diskNew

/-- Modelled from the spec: the fix-application engine of section 4.3 —
iterate, in dispatch order, exactly the rules that had a fixable failure in the
original pre-fix batch, then recompute the complete failure sequence from
scratch against the final mutated source view. -/
def applyAllFixesSpec (env : LintEnv) (l : Linter) (enabledRules : List IRule)
    (fileFailures : List RuleFailure) (sourceFile : SourceFile) (sourceFileName : String)
    (disk : FS) : Except (String × Linter × FS) (List RuleFailure × Linter × FS) :=
  match applyAllFixesSpecLoop env sourceFileName
      (enabledRules.filter (fun rule =>
        fileFailures.any (fun f => f.hasFix && f.ruleName == rule.ruleName)))
      l sourceFile.text sourceFile disk with
  | .error e => .error e
  | .ok (sourceFileFinal, lFinal, diskFinal) =>
    .ok (getAllFailures env lFinal.program sourceFileFinal enabledRules, lFinal, diskFinal)

/-- The session state carried by a fix-loop outcome, whether it succeeded or
raised. -/
def outcomeLinter (r : Except (String × Linter × FS) (SourceFile × Linter × FS)) : Linter :=
  match r with
  | .ok (_, l, _) => l
  | .error (_, l, _) => l

/-- Two session states that agree on everything except the accumulated fixes. -/
def sameSession (l lNew : Linter) : Prop :=
  lNew.failures = l.failures ∧ lNew.program = l.program ∧ lNew.options = l.options

theorem applyAllFixesLoop_linter (env : LintEnv) (fileFailures : List RuleFailure)
    (sourceFileName : String) :
    ∀ (rules : List IRule) (l : Linter) (source : String) (sourceFile : SourceFile) (disk : FS),
      sameSession l
        (outcomeLinter (applyAllFixesLoop env fileFailures sourceFileName rules l source sourceFile
          disk)) := by
  intro rules
  induction rules with
  | nil =>
    intro l source sourceFile disk
    exact ⟨rfl, rfl, rfl⟩
  | cons rule rest ih =>
    intro l source sourceFile disk
    by_cases h : fileFailures.any (fun f => f.hasFix && f.ruleName == rule.ruleName)
    · simp only [applyAllFixesLoop, h, if_true]
      split
      · exact ⟨rfl, rfl, rfl⟩
      · split
        · exact ⟨rfl, rfl, rfl⟩
        · exact ih _ _ _ _
    · simp only [applyAllFixesLoop, h, if_false]
      exact ih l source sourceFile disk

theorem applyAllFixesSpecLoop_eq_loop (env : LintEnv) (fileFailures : List RuleFailure)
    (sourceFileName : String) :
    ∀ (rules : List IRule) (l : Linter) (source : String) (sourceFile : SourceFile) (disk : FS),
      l.program = none →
      applyAllFixesLoop env fileFailures sourceFileName rules l source sourceFile disk
        = applyAllFixesSpecLoop env sourceFileName
            (rules.filter (fun rule =>
              fileFailures.any (fun f => f.hasFix && f.ruleName == rule.ruleName)))
            l source sourceFile disk := by
  intro rules
  induction rules with
  | nil =>
    intro l source sourceFile disk hprog
    rfl
  | cons rule rest ih =>
    intro l source sourceFile disk hprog
    by_cases h : fileFailures.any (fun f => f.hasFix && f.ruleName == rule.ruleName)
    · simp only [applyAllFixesLoop, h, if_true, List.filter_cons, applyAllFixesSpecLoop]
      split
      · rfl
      · simp only [Linter.getSourceFile, hprog]
        exact ih _ _ _ _ rfl
    · simp only [applyAllFixesLoop, h, if_false, List.filter_cons]
      exact ih l source sourceFile disk hprog

theorem length_filter_add_length_filter_not {α : Type} (p : α → Bool) (xs : List α) :
    (xs.filter p).length + (xs.filter (fun a => !(p a))).length = xs.length := by
  induction xs with
  | nil => rfl
  | cons a rest ih =>
    cases h : p a <;> simp [List.filter_cons, h] <;> omega

theorem FS.read_write_self (disk : FS) (p : String) (contents : String) :
    FS.read (FS.write disk p contents) p = some contents := by
  induction disk with
  | nil => simp [FS.read, FS.write, List.find?]
  | cons entry rest ih =>
    obtain ⟨q, c⟩ := entry
    by_cases h : q == p
    · simp [FS.read, FS.write, h, List.find?]
    · simp only [FS.write, h, if_false]
      simp only [FS.read, List.find?, h] at *
      exact ih

theorem stampSeverities_error_of_missing (m : List (String × RuleSeverity))
    (failures : List RuleFailure) (f : RuleFailure) (hmem : f ∈ failures)
    (hmiss : mapGet m f.ruleName = none) :
    ∃ ruleName, stampSeverities m failures = .error ruleName := by
  induction failures with
  | nil => cases hmem
  | cons g rest ih =>
    cases hmem with
    | head =>
      exact ⟨f.ruleName, by simp only [stampSeverities, hmiss]⟩
    | tail _ hrest =>
      cases hg : mapGet m g.ruleName with
      | none => exact ⟨g.ruleName, by simp only [stampSeverities, hg]⟩
      | some severity =>
        obtain ⟨ruleName, hrn⟩ := ih hrest
        exact ⟨ruleName, by simp only [stampSeverities, hg, hrn]⟩

theorem applyAllFixes_ok_sameSession (env : LintEnv) (l : Linter) (enabledRules : List IRule)
    (fileFailures finalFailures : List RuleFailure) (sourceFile : SourceFile)
    (sourceFileName : String) (disk diskAfter : FS) (lAfter : Linter)
    (h : Linter.applyAllFixes env l enabledRules fileFailures sourceFile sourceFileName disk
      = .ok (finalFailures, lAfter, diskAfter)) :
    sameSession l lAfter := by
  unfold Linter.applyAllFixes at h
  cases hloop : applyAllFixesLoop env fileFailures sourceFileName enabledRules l sourceFile.text
      sourceFile disk with
  | error e =>
    rw [hloop] at h
    simp at h
  | ok r =>
    obtain ⟨sourceFileFinal, lFinal, diskFinal⟩ := r
    rw [hloop] at h
    simp only [Except.ok.injEq, Prod.mk.injEq] at h
    obtain ⟨hf, hl, hd⟩ := h
    have hlin := applyAllFixesLoop_linter env fileFailures sourceFileName enabledRules l
      sourceFile.text sourceFile disk
    rw [hloop] at hlin
    have hlin2 : sameSession l lFinal := hlin
    exact hl ▸ hlin2

/-- C2, as stated, fails when the linter owns a whole program: the pieces for a
counterexample.  The program permanently serves the pre-fix view of the file,
`ruleStale` reports a fixable failure exactly on the pre-fix text `"a"`, and the
merge routine rewrites the text to `"b"`. -/
def staleView : SourceFile :=
  { fileName := "file.ts", text := "a" }

def staleProgram : Program :=
  { getSrc := fun n => if n == "file.ts" then some staleView else none }

def sampleReplacement : Replacement :=
  { filePath := "file.ts", startOffset := 0, endOffset := 1, text := "b" }

def sampleFix : Fix :=
  [sampleReplacement]

def staleFailure : RuleFailure :=
  { ruleName := "rs", fileName := "file.ts", fix := some sampleFix,
    severity := RuleSeverity.warning }

def ruleStale : IRule :=
  { ruleName := "rs", ruleSeverity := RuleSeverity.error, isTyped := false,
    apply := fun sf => if sf.text == "a" then .ok [staleFailure] else .ok [],
    applyWithProgram := fun _ _ => .ok [] }

def rewriteEnv : LintEnv :=
  { merge := fun _ _ => "b",
    removeDisabled := fun _ failures => failures,
    resolve := fun p => p,
    loadRules := fun _ _ _ => [],
    findFormatter := fun _ _ => none,
    getRelativePath := fun _ => none }

def optionsFix : LinterOptions :=
  { fix := true, formatter := none, formattersDirectory := none, rulesDirectory := [] }

def linterWithProgram : Linter :=
  { options := optionsFix, program := some staleProgram, failures := [], fixes := [] }

/-- C2 counterexample: with a whole program supplied, the fix loop does not
match the spec's description.  After `ruleStale`'s fix rewrites the text to
`"b"`, the code re-fetches the source view from the program — the stale pre-fix
view with text `"a"` — instead of re-deriving it from the merged text, so the
recomputed batch still reports the (already fixed) failure, while the
spec-described loop reports none. -/
theorem applyAllFixes_spec_counterexample :
    (Linter.applyAllFixes rewriteEnv linterWithProgram [ruleStale] [staleFailure] staleView
        "file.ts" [("file.ts", "a")]).toOption.map (fun r => r.1)
      ≠ (applyAllFixesSpec rewriteEnv linterWithProgram [ruleStale] [staleFailure] staleView
        "file.ts" [("file.ts", "a")]).toOption.map (fun r => r.1) := by
  decide

/-- C2 (amended): for a linter without a whole program, `applyAllFixes` is
exactly the fix-application algorithm the spec describes — it iterates, in
dispatch order, exactly the rules that had a fixable failure in the original
pre-fix batch; for each it re-executes the single rule against the current
source view, applies suppression filtering to that fresh single-rule result,
records and commits the selected fixes, and hands the next iteration a source
view re-derived from the merged text.  (With a program, the view is re-fetched
from the program instead and does not reflect the merged text.) -/
theorem applyAllFixes_matches_spec (env : LintEnv) (l : Linter) (enabledRules : List IRule)
    (fileFailures : List RuleFailure) (sourceFile : SourceFile) (sourceFileName : String)
    (disk : FS) (hprog : l.program = none) :
    Linter.applyAllFixes env l enabledRules fileFailures sourceFile sourceFileName disk
      = applyAllFixesSpec env l enabledRules fileFailures sourceFile sourceFileName disk := by
  unfold Linter.applyAllFixes applyAllFixesSpec
  rw [applyAllFixesSpecLoop_eq_loop env fileFailures sourceFileName enabledRules l sourceFile.text
    sourceFile disk hprog]

def linterNoProgram : Linter :=
  { options := optionsFix, program := none, failures := [], fixes := [] }

/-- Witness for the amended C2 at a concrete input: without a program the code
and the spec-level algorithm coincide. -/
theorem applyAllFixes_matches_spec_holds :
    Linter.applyAllFixes rewriteEnv linterNoProgram [ruleStale] [staleFailure] staleView
        "file.ts" [("file.ts", "a")]
      = applyAllFixesSpec rewriteEnv linterNoProgram [ruleStale] [staleFailure] staleView
        "file.ts" [("file.ts", "a")] :=
  applyAllFixes_matches_spec rewriteEnv linterNoProgram [ruleStale] [staleFailure] staleView
    "file.ts" [("file.ts", "a")] rfl

/-- C4: for every file whose post-suppression failure batch is empty, a lint
invocation returns without touching the disk or the session's accumulated
failures and fixes, regardless of the fix-mode flag. -/
theorem lint_no_failures_noop (env : LintEnv) (l : Linter) (fileName source : String)
    (configuration : IConfigurationFile) (disk : FS) (sourceFile : SourceFile)
    (hsf : l.getSourceFile fileName source = .ok sourceFile)
    (hempty : getAllFailures env l.program sourceFile
        (Linter.getEnabledRules env l configuration (isJsFileName fileName)) = []) :
    Linter.lint env l fileName source configuration disk = .ok (l, disk) := by
  simp only [Linter.lint, hsf, hempty, List.length_nil, if_pos]

def emptyConfig : IConfigurationFile :=
  { rules := [], jsRules := [], rulesDirectory := [] }

def quietRule : IRule :=
  { ruleName := "quiet", ruleSeverity := RuleSeverity.warning, isTyped := false,
    apply := fun _ => .ok [], applyWithProgram := fun _ _ => .ok [] }

def quietEnv : LintEnv :=
  { rewriteEnv with loadRules := fun _ _ _ => [quietRule] }

/-- Witness for C4: a rule that reports nothing leaves the session and the disk
untouched, with fix mode on. -/
theorem lint_no_failures_noop_holds :
    Linter.lint quietEnv linterNoProgram "file.ts" "a" emptyConfig [("file.ts", "a")]
      = .ok (linterNoProgram, [("file.ts", "a")]) :=
  lint_no_failures_noop quietEnv linterNoProgram "file.ts" "a" emptyConfig [("file.ts", "a")]
    { fileName := "file.ts", text := "a" } rfl rfl

/-- C5: for every configuration with zero enabled rules, a lint invocation
produces zero failures and performs zero writes, given the suppression
resolver's contract that it returns a subset of the failures it is given. -/
theorem lint_zero_rules_noop (env : LintEnv) (l : Linter) (fileName source : String)
    (configuration : IConfigurationFile) (disk : FS) (sourceFile : SourceFile)
    (hsupp : SuppressionSound env)
    (hsf : l.getSourceFile fileName source = .ok sourceFile)
    (hzero : Linter.getEnabledRules env l configuration (isJsFileName fileName) = []) :
    Linter.lint env l fileName source configuration disk = .ok (l, disk) := by
  have hempty : getAllFailures env l.program sourceFile
      (Linter.getEnabledRules env l configuration (isJsFileName fileName)) = [] := by
    rw [hzero]
    unfold getAllFailures
    simpa using List.sublist_nil.mp (by simpa using hsupp sourceFile [])
  simp only [Linter.lint, hsf, hempty, List.length_nil, if_pos]

/-- Witness for C5: with a loader that yields no rules, linting is a no-op. -/
theorem lint_zero_rules_noop_holds :
    Linter.lint rewriteEnv linterNoProgram "zero.ts" "let x;" emptyConfig [("zero.ts", "let x;")]
      = .ok (linterNoProgram, [("zero.ts", "let x;")]) :=
  lint_zero_rules_noop rewriteEnv linterNoProgram "zero.ts" "let x;" emptyConfig
    [("zero.ts", "let x;")] { fileName := "zero.ts", text := "let x;" }
    (fun _ failures => List.Sublist.refl failures) rfl rfl

/-- C7: in the session summary, `errorCount` counts the accumulated failures
whose stamped severity is `error` and `warningCount` counts the remaining
accumulated failures. -/
theorem getResult_counts (env : LintEnv) (l : Linter) (fmt : Formatter)
    (hfmt : env.findFormatter (l.options.formatter.getD "prose")
        (env.getRelativePath l.options.formattersDirectory) = some fmt) :
    Linter.getResult env l = .ok
      { errorCount := (l.failures.filter (fun f => f.severity == RuleSeverity.error)).length,
        failures := l.failures, fixes := l.fixes,
        format := l.options.formatter.getD "prose",
        output := fmt.format l.failures l.fixes,
        warningCount :=
          (l.failures.filter (fun f => !(f.severity == RuleSeverity.error))).length } := by
  have hsplit := length_filter_add_length_filter_not
    (fun f => f.severity == RuleSeverity.error) l.failures
  have hw : l.failures.length
        - (l.failures.filter (fun f => f.severity == RuleSeverity.error)).length
      = (l.failures.filter (fun f => !(f.severity == RuleSeverity.error))).length := by
    omega
  simp only [Linter.getResult, hfmt, hw]

def emptyFormatter : Formatter :=
  { format := fun _ _ => "" }

def formatterEnv : LintEnv :=
  { rewriteEnv with findFormatter := fun _ _ => some emptyFormatter }

def errFailure : RuleFailure :=
  { ruleName := "ruleX", fileName := "file.ts", fix := none, severity := RuleSeverity.error }

def warnFailure : RuleFailure :=
  { ruleName := "ruleY", fileName := "file.ts", fix := none, severity := RuleSeverity.warning }

def sessionTwo : Linter :=
  { options := optionsFix, program := none, failures := [errFailure, warnFailure], fixes := [] }

/-- Witness for C7: one failure stamped error and one stamped warning summarise
as errorCount 1 and warningCount 1. -/
theorem getResult_counts_holds :
    Linter.getResult formatterEnv sessionTwo = .ok
      { errorCount := 1, failures := [errFailure, warnFailure], fixes := [],
        format := "prose", output := "", warningCount := 1 } :=
  getResult_counts formatterEnv sessionTwo emptyFormatter rfl

/-- C8: a rule whose execution raises is caught at the dispatch boundary and
contributes an empty failure sequence, and the batch collected for the file is
the one the remaining enabled rules produce. -/
theorem applyRule_failure_isolated (env : LintEnv) (program : Option Program)
    (sourceFile : SourceFile) (pre post : List IRule) (rule : IRule) (e : String)
    (herr : dispatchRule program rule sourceFile = .error e) :
    applyRule program rule sourceFile = [] ∧
    getAllFailures env program sourceFile (pre ++ rule :: post)
      = getAllFailures env program sourceFile (pre ++ post) := by
  have happ : applyRule program rule sourceFile = [] := by
    unfold applyRule
    rw [herr]
  refine ⟨happ, ?_⟩
  unfold getAllFailures
  rw [List.map_append, List.map_append, List.map_cons, happ]
  simp [List.flatten_append]

def throwingRule : IRule :=
  { ruleName := "boom", ruleSeverity := RuleSeverity.error, isTyped := false,
    apply := fun _ => .error "boom", applyWithProgram := fun _ _ => .error "boom" }

def reportedFailure : RuleFailure :=
  { ruleName := "steady", fileName := "file.ts", fix := none,
    severity := RuleSeverity.warning }

def steadyRule : IRule :=
  { ruleName := "steady", ruleSeverity := RuleSeverity.warning, isTyped := false,
    apply := fun _ => .ok [reportedFailure], applyWithProgram := fun _ _ => .ok [] }

/-- Witness for C8: an always-throwing rule yields no failures while the other
rule's batch is unchanged. -/
theorem applyRule_failure_isolated_holds :
    applyRule none throwingRule staleView = [] ∧
    getAllFailures rewriteEnv none staleView ([] ++ throwingRule :: [steadyRule])
      = getAllFailures rewriteEnv none staleView ([] ++ [steadyRule]) :=
  applyRule_failure_isolated rewriteEnv none staleView [] [steadyRule] throwingRule "boom" rfl

/-- C9: requesting the summary when the formatter registry knows no formatter
of the requested name raises a fatal error naming the formatter, and no
formatted output is produced. -/
theorem getResult_unknown_formatter (env : LintEnv) (l : Linter)
    (hfmt : env.findFormatter (l.options.formatter.getD "prose")
        (env.getRelativePath l.options.formattersDirectory) = none) :
    Linter.getResult env l
      = .error ("formatter " ++ l.options.formatter.getD "prose" ++ " not found") := by
  simp only [Linter.getResult, hfmt]

/-- Witness for C9: the default formatter name with an empty registry raises. -/
theorem getResult_unknown_formatter_holds :
    Linter.getResult rewriteEnv linterNoProgram
      = .error ("formatter " ++ "prose" ++ " not found") :=
  getResult_unknown_formatter rewriteEnv linterNoProgram rfl

/-- C6: if the final failure batch of a file contains a failure whose rule name
has no entry in the severity map built from the enabled rules, `lint` raises a
fatal error for that file instead of assigning a default severity, and the
session's accumulated failure list is unchanged on that error. -/
theorem lint_missing_severity_fatal (env : LintEnv) (l : Linter) (fileName source : String)
    (configuration : IConfigurationFile) (disk : FS) (sourceFile : SourceFile)
    (enabledRules : List IRule) (fileFailures finalFailures : List RuleFailure)
    (lAfter : Linter) (diskAfter : FS) (f : RuleFailure)
    (hsf : l.getSourceFile fileName source = .ok sourceFile)
    (hrules : Linter.getEnabledRules env l configuration (isJsFileName fileName) = enabledRules)
    (hff : getAllFailures env l.program sourceFile enabledRules = fileFailures)
    (hne : ¬ fileFailures.length = 0)
    (hstep : (if l.options.fix && fileFailures.any RuleFailure.hasFix then
          Linter.applyAllFixes env l enabledRules fileFailures sourceFile fileName disk
        else
          .ok (fileFailures, l, disk)) = .ok (finalFailures, lAfter, diskAfter))
    (hmem : f ∈ finalFailures)
    (hmiss : mapGet (buildSeverityMap enabledRules) f.ruleName = none) :
    (∃ ruleName, Linter.lint env l fileName source configuration disk
        = .error ("Severity for rule " ++ ruleName ++ " not found", lAfter, diskAfter)) ∧
    lAfter.failures = l.failures := by
  obtain ⟨ruleName, hrn⟩ :=
    stampSeverities_error_of_missing (buildSeverityMap enabledRules) finalFailures f hmem hmiss
  constructor
  · refine ⟨ruleName, ?_⟩
    simp only [Linter.lint, hsf, hrules, hff, if_neg hne, hstep, hrn]
  · cases hc : l.options.fix && fileFailures.any RuleFailure.hasFix with
    | false =>
      rw [hc] at hstep
      simp only [Bool.false_eq_true, if_false, Except.ok.injEq, Prod.mk.injEq] at hstep
      rw [← hstep.2.1]
    | true =>
      rw [hc] at hstep
      simp only [if_true] at hstep
      exact (applyAllFixes_ok_sameSession env l enabledRules fileFailures finalFailures sourceFile
        fileName disk diskAfter lAfter hstep).1

def strayFailure : RuleFailure :=
  { ruleName := "stray", fileName := "file.ts", fix := none,
    severity := RuleSeverity.warning }

/-- A rule that reports under a name different from its own, so the severity
map has no entry for the reported failure. -/
def mislabelingRule : IRule :=
  { ruleName := "labeled", ruleSeverity := RuleSeverity.error, isTyped := false,
    apply := fun _ => .ok [strayFailure], applyWithProgram := fun _ _ => .ok [] }

def mislabelingEnv : LintEnv :=
  { rewriteEnv with loadRules := fun _ _ _ => [mislabelingRule] }

def optionsNoFix : LinterOptions :=
  { fix := false, formatter := none, formattersDirectory := none, rulesDirectory := [] }

def linterNoFix : Linter :=
  { options := optionsNoFix, program := none, failures := [], fixes := [] }

/-- Witness for C6: a failure reported under an unknown rule name aborts the
file with the severity error and leaves the accumulated failures unchanged. -/
theorem lint_missing_severity_fatal_holds :
    (∃ ruleName, Linter.lint mislabelingEnv linterNoFix "file.ts" "a" emptyConfig
          [("file.ts", "a")]
        = .error ("Severity for rule " ++ ruleName ++ " not found", linterNoFix,
            [("file.ts", "a")])) ∧
    linterNoFix.failures = linterNoFix.failures :=
  lint_missing_severity_fatal mislabelingEnv linterNoFix "file.ts" "a" emptyConfig
    [("file.ts", "a")] { fileName := "file.ts", text := "a" } [mislabelingRule] [strayFailure]
    [strayFailure] linterNoFix [("file.ts", "a")] strayFailure rfl rfl rfl (by decide) rfl
    (List.mem_singleton.mpr rfl) rfl

/-- C1: when fixes are applied, the failure batch that gets severity-stamped
and appended to the session is recomputed from scratch — every enabled rule
dispatched afresh and suppression re-applied, via `getAllFailures` — against
the final source view the fix loop produced, not the pre-fix batch
`fileFailures`. -/
theorem lint_fix_recomputes_failures (env : LintEnv) (l : Linter) (fileName source : String)
    (configuration : IConfigurationFile) (disk : FS) (sourceFile sourceFileFinal : SourceFile)
    (enabledRules : List IRule) (fileFailures stamped : List RuleFailure)
    (lFinal : Linter) (diskFinal : FS)
    (hsf : l.getSourceFile fileName source = .ok sourceFile)
    (hrules : Linter.getEnabledRules env l configuration (isJsFileName fileName) = enabledRules)
    (hff : getAllFailures env l.program sourceFile enabledRules = fileFailures)
    (hne : ¬ fileFailures.length = 0)
    (hfix : l.options.fix = true)
    (hany : fileFailures.any RuleFailure.hasFix = true)
    (hloop : applyAllFixesLoop env fileFailures fileName enabledRules l sourceFile.text sourceFile
        disk = .ok (sourceFileFinal, lFinal, diskFinal))
    (hstamp : stampSeverities (buildSeverityMap enabledRules)
        (getAllFailures env lFinal.program sourceFileFinal enabledRules) = .ok stamped) :
    Linter.lint env l fileName source configuration disk
      = .ok ({ lFinal with failures := l.failures ++ stamped }, diskFinal) := by
  have hsame : sameSession l lFinal := by
    have hlin := applyAllFixesLoop_linter env fileFailures fileName enabledRules l sourceFile.text
      sourceFile disk
    rw [hloop] at hlin
    exact hlin
  simp only [Linter.lint, hsf, hrules, hff, if_neg hne, hfix, Bool.true_and, hany, if_true,
    Linter.applyAllFixes, hloop, hstamp, hsame.1]

/-- An environment whose loader serves exactly the rule that flags (and fixes)
the text `"a"`, and whose merger rewrites the text to `"b"`. -/
def fixingEnv : LintEnv :=
  { rewriteEnv with loadRules := fun _ _ _ => [ruleStale] }

/-- The session state after the fix loop of the C1 witness: the fix was
recorded, no failure accumulated. -/
def fixedSession : Linter :=
  { options := optionsFix, program := none, failures := [], fixes := [staleFailure] }

/-- Witness for C1: after the fix rewrites the file to `"b"`, the recomputed
batch is empty, so the session receives no failure even though the pre-fix
batch had one. -/
theorem lint_fix_recomputes_failures_holds :
    Linter.lint fixingEnv linterNoProgram "file.ts" "a" emptyConfig [("file.ts", "a")]
      = .ok (fixedSession, [("file.ts", "b")]) :=
  lint_fix_recomputes_failures fixingEnv linterNoProgram "file.ts" "a" emptyConfig
    [("file.ts", "a")] { fileName := "file.ts", text := "a" } { fileName := "file.ts", text := "b" }
    [ruleStale] [staleFailure] [] fixedSession [("file.ts", "b")] rfl rfl rfl (by decide) rfl rfl
    rfl rfl

/-- C3: a fixable failure targeting a different file than the one being linted
makes the fix pass read that file from disk, merge, and write it back, while
the linted file's in-memory working text stays unchanged; the fix is still
appended to the session's accumulated-fixes record. -/
theorem applyAllFixes_cross_file (env : LintEnv) (l : Linter) (rule : IRule)
    (fileFailures : List RuleFailure) (sourceFile : SourceFile) (sourceFileName : String)
    (disk : FS) (f : RuleFailure) (oldSource : String)
    (hprog : l.program = none)
    (hhas : fileFailures.any (fun g => g.hasFix && g.ruleName == rule.ruleName) = true)
    (hupd : (env.removeDisabled sourceFile (applyRule l.program rule sourceFile)).filter
        RuleFailure.hasFix = [f])
    (hcross : (env.resolve f.fileName == env.resolve sourceFileName) = false)
    (hread : FS.read disk f.fileName = some oldSource) :
    Linter.applyAllFixes env l [rule] fileFailures sourceFile sourceFileName disk
      = .ok (getAllFailures env l.program
            { fileName := sourceFileName, text := sourceFile.text } [rule],
          { l with fixes := l.fixes ++ [f] },
          FS.write disk f.fileName (env.merge oldSource [f.fix.getD []])) := by
  rw [hprog] at hupd
  simp only [Linter.applyAllFixes, applyAllFixesLoop, hhas, if_true, hupd, Linter.applyFixes,
    createMultiMap, List.foldl_cons, List.foldl_nil, addMultiMapEntry, applyFixesLoop, hcross,
    Bool.false_eq_true, if_false, hread, Linter.getSourceFile, hprog]

def crossFix : Fix :=
  [{ filePath := "other.ts", startOffset := 0, endOffset := 0, text := "x" }]

def crossFailure : RuleFailure :=
  { ruleName := "crossing", fileName := "other.ts", fix := some crossFix,
    severity := RuleSeverity.warning }

def crossRule : IRule :=
  { ruleName := "crossing", ruleSeverity := RuleSeverity.error, isTyped := false,
    apply := fun _ => .ok [crossFailure], applyWithProgram := fun _ _ => .ok [] }

/-- An environment whose merger appends a bang, making the committed text
observable. -/
def appendEnv : LintEnv :=
  { rewriteEnv with merge := fun source _ => source ++ "!" }

/-- Witness for C3: the other file is rewritten on disk, the linted file's text
survives into the recomputation view, and the fix is recorded. -/
theorem applyAllFixes_cross_file_holds :
    Linter.applyAllFixes appendEnv linterNoProgram [crossRule] [crossFailure] staleView
        "file.ts" [("other.ts", "old")]
      = .ok (getAllFailures appendEnv none { fileName := "file.ts", text := "a" } [crossRule],
          { options := optionsFix, program := none, failures := [], fixes := [crossFailure] },
          [("other.ts", "old!")]) :=
  applyAllFixes_cross_file appendEnv linterNoProgram crossRule [crossFailure] staleView "file.ts"
    [("other.ts", "old")] crossFailure "old" rfl rfl rfl rfl rfl

/-- C10: a fix pass commits the linted file itself to disk after each rule with
fixable failures: the merged text both replaces the in-memory working text and
is immediately written under the linted file's path. -/
theorem applyAllFixes_writes_current_file (env : LintEnv) (l : Linter) (rule : IRule)
    (fileFailures : List RuleFailure) (sourceFile : SourceFile) (sourceFileName : String)
    (disk : FS) (f : RuleFailure)
    (hprog : l.program = none)
    (hhas : fileFailures.any (fun g => g.hasFix && g.ruleName == rule.ruleName) = true)
    (hupd : (env.removeDisabled sourceFile (applyRule l.program rule sourceFile)).filter
        RuleFailure.hasFix = [f])
    (hsame : f.fileName = sourceFileName) :
    Linter.applyAllFixes env l [rule] fileFailures sourceFile sourceFileName disk
      = .ok (getAllFailures env l.program
            { fileName := sourceFileName,
              text := env.merge sourceFile.text [f.fix.getD []] } [rule],
          { l with fixes := l.fixes ++ [f] },
          FS.write disk sourceFileName (env.merge sourceFile.text [f.fix.getD []])) ∧
    FS.read (FS.write disk sourceFileName (env.merge sourceFile.text [f.fix.getD []]))
        sourceFileName
      = some (env.merge sourceFile.text [f.fix.getD []]) := by
  constructor
  · rw [hprog] at hupd
    simp only [Linter.applyAllFixes, applyAllFixesLoop, hhas, if_true, hupd, Linter.applyFixes,
      createMultiMap, List.foldl_cons, List.foldl_nil, addMultiMapEntry, applyFixesLoop, hsame,
      beq_self_eq_true, if_true, Linter.getSourceFile, hprog]
  · exact FS.read_write_self disk sourceFileName (env.merge sourceFile.text [f.fix.getD []])

def selfFix : Fix :=
  [{ filePath := "file.ts", startOffset := 0, endOffset := 1, text := "c" }]

def selfFailure : RuleFailure :=
  { ruleName := "selfRepair", fileName := "file.ts", fix := some selfFix,
    severity := RuleSeverity.warning }

def selfRule : IRule :=
  { ruleName := "selfRepair", ruleSeverity := RuleSeverity.error, isTyped := false,
    apply := fun _ => .ok [selfFailure], applyWithProgram := fun _ _ => .ok [] }

/-- Witness for C10: the linted file's entry on disk holds the merged text
right after the rule's fixes are applied. -/
theorem applyAllFixes_writes_current_file_holds :
    Linter.applyAllFixes appendEnv linterNoProgram [selfRule] [selfFailure] staleView
        "file.ts" [("file.ts", "a")]
      = .ok (getAllFailures appendEnv none { fileName := "file.ts", text := "a!" } [selfRule],
          { options := optionsFix, program := none, failures := [], fixes := [selfFailure] },
          [("file.ts", "a!")]) ∧
    FS.read ([("file.ts", "a!")] : FS) "file.ts" = some "a!" :=
  applyAllFixes_writes_current_file appendEnv linterNoProgram selfRule [selfFailure] staleView
    "file.ts" [("file.ts", "a")] selfFailure rfl rfl rfl rfl

end TSLint
